import Mathlib

/-!
Shallow embedding of the Pound text editor's viewport/cursor/scroll engine
(src/pound/src/main.rs). Rust `usize` values are modelled as `Nat`; Rust
string slices as `List Char`; a Rust panic (out-of-range index, the
`unreachable!()` arm) as `none` of an `Option` result. Terminal I/O, raw-mode
toggling and the event reader are external: events are passed explicitly and
the renderer is modelled as the per-row text content it appends to the output
buffer.
-/

namespace Pound

/-- Version string of the editor, `const VERSION: &str = "1.0.0"`. -/
def VERSION : List Char := "1.0.0".toList

/-- Key codes of decoded key events (crossterm `KeyCode`): the constructors
the program inspects, plus representatives of unmapped keys. -/
inductive KeyCode where
  | Up
  | Down
  | Left
  | Right
  | Char (c : Char)
  | Esc
  | Enter
  | Backspace
deriving DecidableEq

/-- Modifier flags of a key event (crossterm `KeyModifiers` bitflags). -/
structure KeyModifiers where
  control : Bool
  shift : Bool
  alt : Bool
deriving DecidableEq

/-- Constant `KeyModifiers::NONE`: no modifier held. -/
def KeyModifiers.NONE : KeyModifiers := ⟨false, false, false⟩

/-- Constant `KeyModifiers::CONTROL`: exactly the control modifier. -/
def KeyModifiers.CONTROL : KeyModifiers := ⟨true, false, false⟩

/-- Decoded key event, crossterm `KeyEvent { code, modifiers }`. -/
structure KeyEvent where
  code : KeyCode
  modifiers : KeyModifiers
deriving DecidableEq

/-- Decoded terminal event (crossterm `Event`): key, resize, or one of the
event kinds the program ignores. -/
inductive Event where
  | Key (k : KeyEvent)
  | Resize (x y : Nat)
  | Mouse
  | FocusGained
  | FocusLost
  | Paste (s : List Char)
deriving DecidableEq

/-- Cursor and viewport state, `struct CursorController`: cursor position in
buffer coordinates, zero-based viewport bounds, scroll offsets. -/
structure CursorController where
  x : Nat
  y : Nat
  x_max : Nat
  y_max : Nat
  row_offset : Nat
  column_offset : Nat
deriving DecidableEq

/-- Constructor `CursorController::new`: zero cursor and offsets, bounds one
less than the window size (width, height). -/
def CursorController.new (win_size : Nat × Nat) : CursorController :=
  { x := 0, y := 0, x_max := win_size.1 - 1, y_max := win_size.2 - 1,
    row_offset := 0, column_offset := 0 }

/-- Method `CursorController::move_cursor`: the four directional updates; any
other key code reaches `unreachable!()`, modelled as `none`. `Nat`
subtraction is Rust's `saturating_sub`. -/
def CursorController.move_cursor (c : CursorController) (direction : KeyCode)
    (number_of_rows : Nat) : Option CursorController :=
  match direction with
  | KeyCode.Up => some { c with y := c.y - 1 }
  | KeyCode.Down => some (if c.y < number_of_rows then { c with y := c.y + 1 } else c)
  | KeyCode.Left => some { c with x := c.x - 1 }
  | KeyCode.Right => some { c with x := c.x + 1 }
  | _ => none

/-- Method `CursorController::scroll`: re-anchor `row_offset` so `y` is
visible, then `column_offset` so `x` is visible, exactly as the source's two
statement pairs. -/
def CursorController.scroll (c : CursorController) : CursorController :=
  let ro := min c.row_offset c.y
  let ro' := if c.y ≥ ro + c.y_max + 1 then c.y - c.y_max else ro
  let co := min c.column_offset c.x
  let co' := if c.x ≥ co + c.x_max + 1 then c.x - c.x_max else co
  { c with row_offset := ro', column_offset := co' }

/-- Repeated `move_cursor` steps in one direction, propagating a panic;
used to state convergence of repeated Up/Left moves. -/
def moveIter (d : KeyCode) (n : Nat) : Nat → CursorController → Option CursorController
  | 0, c => some c
  | k + 1, c => (c.move_cursor d n).bind (moveIter d n k)

/-- Drop one trailing carriage return from a split-off line, as Rust
`str::lines` does. -/
def stripCr (l : List Char) : List Char :=
  if l.getLast? = some '\r' then l.dropLast else l

/-- Worker of the line splitter: `acc` holds the current line reversed;
a `'\n'` finishes a line, and at end of input a final unterminated line is
emitted only when nonempty. -/
def linesAux : List Char → List Char → List (List Char)
  | [], acc => if acc = [] then [] else [stripCr acc.reverse]
  | c :: cs, acc =>
    if c = '\n' then stripCr acc.reverse :: linesAux cs []
    else linesAux cs (c :: acc)

/-- Model of Rust `str::lines`: split on `'\n'`, strip one trailing `'\r'`
per line, and yield no trailing empty line for terminator-ended content. -/
def rustLines (s : List Char) : List (List Char) := linesAux s []

/-- Content of a text file given as a list of lines and, per line, its
terminator: each line followed by its terminator, in order. Used to state the
round-trip property of loading. -/
def joinLT : List (List Char) → List (List Char) → List Char
  | [], _ => []
  | _ :: _, [] => []
  | l :: ls, t :: ts => l ++ t ++ joinLT ls ts

/-- Row store, `struct EditorRows`: the loaded lines. -/
structure EditorRows where
  row_contents : List (List Char)
deriving DecidableEq

/-- Method `EditorRows::from_file` after the external file read succeeded:
split the content into rows with `lines()`. -/
def EditorRows.from_file (file_contents : List Char) : EditorRows :=
  { row_contents := rustLines file_contents }

/-- Method `EditorRows::number_of_rows`. -/
def EditorRows.number_of_rows (r : EditorRows) : Nat := r.row_contents.length

/-- Method `EditorRows::get_row`: Rust indexing `&self.row_contents[at]`,
which panics out of range, modelled as `Option`. -/
def EditorRows.get_row (r : EditorRows) (i : Nat) : Option (List Char) :=
  r.row_contents.get? i

/-- Rust slice `&s[start..stop]`: defined when `start ≤ stop ≤ s.length`;
otherwise the access panics, modelled as `none`. -/
def sliceRange (s : List Char) (start stop : Nat) : Option (List Char) :=
  if start ≤ stop ∧ stop ≤ s.length then some ((s.drop start).take (stop - start))
  else none

/-- Visible part of one stored row in `Output::draw_rows`:
`len = min(row.len().saturating_sub(column_offset), screen_colums)`,
`start = if len == 0 then 0 else column_offset`, then slice
`row[start..start + len]`. -/
def rowContent (row : List Char) (column_offset screen_colums : Nat) : Option (List Char) :=
  let len := min (row.length - column_offset) screen_colums
  let start := if len = 0 then 0 else column_offset
  sliceRange row start (start + len)

/-- Welcome banner, `format!("Pound editor -- Version {}", VERSION)`. -/
def welcomeMsg : List Char := "Pound editor -- Version ".toList ++ VERSION

/-- Text content `Output::draw_rows` appends for frame row `i`; the
clear-to-end-of-line marker and the `\r\n` separator that follow each row
are terminal control output, not row content, and are not modelled. `wrapFn`
is the external `textwrap::wrap`, whose segments the source concatenates
with no separator. `none` models a panic. -/
def drawRow (wrapFn : List Char → Nat → List (List Char)) (rows : EditorRows)
    (cc : CursorController) (screen_colums screen_rows i : Nat) : Option (List Char) :=
  let file_row := i + cc.row_offset
  if rows.number_of_rows ≤ file_row then
    if rows.number_of_rows = 0 ∧ i = screen_rows / 3 then
      if screen_colums < welcomeMsg.length then
        some ((wrapFn welcomeMsg screen_colums).flatten)
      else
        let padding := (screen_colums - welcomeMsg.length) / 2
        if padding ≠ 0 then some ('~' :: (List.replicate (padding - 1) ' ' ++ welcomeMsg))
        else some welcomeMsg
    else
      some ['~']
  else
    (rows.get_row file_row).bind fun row => rowContent row cc.column_offset screen_colums

/-- All frame row contents of `Output::draw_rows` for one refresh. -/
def draw_rows (wrapFn : List Char → Nat → List (List Char)) (rows : EditorRows)
    (cc : CursorController) (screen_colums screen_rows : Nat) : List (Option (List Char)) :=
  (List.range screen_rows).map (drawRow wrapFn rows cc screen_colums screen_rows)

/-- Renderer-owned state, `struct Output`, without the accumulating terminal
buffer (its frame content is computed by `draw_rows` above). -/
structure Output where
  win_size : Nat × Nat
  cursor_controller : CursorController
  editor_rows : EditorRows
deriving DecidableEq

/-- Method `Output::move_cursor`: forwards to the cursor controller with the
current row count. -/
def Output.move_cursor (o : Output) (direction : KeyCode) : Option Output :=
  (o.cursor_controller.move_cursor direction o.editor_rows.number_of_rows).map
    fun cc => { o with cursor_controller := cc }

/-- Method `Output::process_resize`: store the new window size, set the
zero-based bounds, clamp the cursor into them; offsets are untouched. -/
def Output.process_resize (o : Output) (x y : Nat) : Output :=
  { o with
    win_size := (x, y),
    cursor_controller := { o.cursor_controller with
      x_max := x - 1,
      y_max := y - 1,
      x := min o.cursor_controller.x (x - 1),
      y := min o.cursor_controller.y (y - 1) } }

/-- Editor state, `struct Editor`, without its event reader (events are
external input, passed to `process_event` explicitly). -/
structure Editor where
  output : Output
deriving DecidableEq

/-- Method `Editor::process_keypress`: the quit chord returns `false`
(quit); one of the four directional codes with no modifiers moves the
cursor; anything else is ignored and returns `true` (continue). `none`
models a panic inside `move_cursor`. -/
def Editor.process_keypress (ed : Editor) (key_event : KeyEvent) : Option (Editor × Bool) :=
  if key_event.code = KeyCode.Char 'q' ∧ key_event.modifiers = KeyModifiers.CONTROL then
    some (ed, false)
  else if (key_event.code = KeyCode.Up ∨ key_event.code = KeyCode.Down ∨
      key_event.code = KeyCode.Left ∨ key_event.code = KeyCode.Right) ∧
      key_event.modifiers = KeyModifiers.NONE then
    (ed.output.move_cursor key_event.code).map fun o => ({ ed with output := o }, true)
  else
    some (ed, true)

/-- Method `Editor::process_resize`. -/
def Editor.process_resize (ed : Editor) (x y : Nat) : Editor :=
  { ed with output := ed.output.process_resize x y }

/-- Method `Editor::process_event` on one decoded event: resize events
resize, key events dispatch, every other event is ignored and the session
continues. -/
def Editor.process_event (ed : Editor) (ev : Event) : Option (Editor × Bool) :=
  match ev with
  | Event.Resize x y => some (ed.process_resize x y, true)
  | Event.Key key_event => ed.process_keypress key_event
  | _ => some (ed, true)

theorem scroll_bounds_aux (c : CursorController) :
    c.scroll.row_offset ≤ c.scroll.y ∧ c.scroll.y ≤ c.scroll.row_offset + c.scroll.y_max ∧
    c.scroll.column_offset ≤ c.scroll.x ∧ c.scroll.x ≤ c.scroll.column_offset + c.scroll.x_max := by
  obtain ⟨x, y, xm, ym, ro, co⟩ := c
  simp only [CursorController.scroll]
  refine ⟨?_, ?_, ?_, ?_⟩ <;> dsimp only <;> split_ifs <;> omega

theorem scroll_fixed_aux (c : CursorController) (h1 : c.row_offset ≤ c.y)
    (h2 : c.y ≤ c.row_offset + c.y_max) (h3 : c.column_offset ≤ c.x)
    (h4 : c.x ≤ c.column_offset + c.x_max) : c.scroll = c := by
  obtain ⟨x, y, xm, ym, ro, co⟩ := c
  simp only [CursorController.scroll, CursorController.mk.injEq] at *
  refine ⟨trivial, trivial, trivial, trivial, ?_, ?_⟩ <;> split_ifs <;> omega

/-- Claim C1: for every cursor and viewport state, after `scroll` the cursor
lies inside the scrolled viewport: `row_offset ≤ y ≤ row_offset + y_max` and
`column_offset ≤ x ≤ column_offset + x_max`. -/
theorem claim_C1_scroll_establishes_bounds (c : CursorController) :
    c.scroll.row_offset ≤ c.scroll.y ∧ c.scroll.y ≤ c.scroll.row_offset + c.scroll.y_max ∧
    c.scroll.column_offset ≤ c.scroll.x ∧ c.scroll.x ≤ c.scroll.column_offset + c.scroll.x_max :=
  scroll_bounds_aux c

/-- Claim C10: `scroll` is idempotent, and every state already satisfying the
bounds postcondition is a fixed point of `scroll`. -/
theorem claim_C10_scroll_idempotent (c : CursorController) :
    c.scroll.scroll = c.scroll ∧
    ((c.row_offset ≤ c.y ∧ c.y ≤ c.row_offset + c.y_max ∧
      c.column_offset ≤ c.x ∧ c.x ≤ c.column_offset + c.x_max) → c.scroll = c) := by
  obtain ⟨h1, h2, h3, h4⟩ := scroll_bounds_aux c
  exact ⟨scroll_fixed_aux c.scroll h1 h2 h3 h4,
    fun ⟨a, b, d, e⟩ => scroll_fixed_aux c a b d e⟩

theorem moveIter_up (n k x y xm ym ro co : Nat) :
    moveIter KeyCode.Up n k ⟨x, y, xm, ym, ro, co⟩ = some ⟨x, y - k, xm, ym, ro, co⟩ := by
  induction k generalizing y with
  | zero => simp [moveIter]
  | succ k ih =>
    simp only [moveIter, CursorController.move_cursor, Option.some_bind]
    rw [ih]
    congr 2
    omega

theorem moveIter_left (n k x y xm ym ro co : Nat) :
    moveIter KeyCode.Left n k ⟨x, y, xm, ym, ro, co⟩ = some ⟨x - k, y, xm, ym, ro, co⟩ := by
  induction k generalizing x with
  | zero => simp [moveIter]
  | succ k ih =>
    simp only [moveIter, CursorController.move_cursor, Option.some_bind]
    rw [ih]
    congr 2
    omega

/-- Claim C2: `move_cursor` acts exactly as described per direction (Up and
Left saturate at 0, Down increments only while `y < number_of_rows`, Right
increments unconditionally), and repeated Up and Left moves from any position
reach `(0, 0)` and stay there. -/
theorem claim_C2_move_cursor (c : CursorController) (n k j : Nat) :
    c.move_cursor KeyCode.Up n = some { c with y := c.y - 1 } ∧
    c.move_cursor KeyCode.Down n = some (if c.y < n then { c with y := c.y + 1 } else c) ∧
    c.move_cursor KeyCode.Left n = some { c with x := c.x - 1 } ∧
    c.move_cursor KeyCode.Right n = some { c with x := c.x + 1 } ∧
    (moveIter KeyCode.Up n c.y c).bind (moveIter KeyCode.Left n c.x) =
      some { c with x := 0, y := 0 } ∧
    (moveIter KeyCode.Up n k { c with x := 0, y := 0 }).bind (moveIter KeyCode.Left n j) =
      some { c with x := 0, y := 0 } := by
  obtain ⟨x, y, xm, ym, ro, co⟩ := c
  refine ⟨rfl, rfl, rfl, rfl, ?_, ?_⟩ <;> simp [moveIter_up, moveIter_left]

theorem rowContent_eq (row : List Char) (co w : Nat) :
    rowContent row co w = some ((row.drop co).take (min (row.length - co) w)) := by
  unfold rowContent sliceRange
  dsimp only
  by_cases h : min (row.length - co) w = 0
  · rw [h]
    simp
  · rw [if_neg h]
    have hmin : min (row.length - co) w ≤ row.length - co := Nat.min_le_left _ _
    have hco : co ≤ row.length := by
      rcases Nat.lt_or_ge co row.length with hh | hh
      · exact Nat.le_of_lt hh
      · exact absurd (by simp [Nat.sub_eq_zero_of_le hh]) h
    have hstop : co + min (row.length - co) w ≤ row.length := by omega
    rw [if_pos ⟨Nat.le_add_right _ _, hstop⟩, Nat.add_sub_cancel_left]

/-- Claim C3: for every stored row the renderer emits exactly the substring
starting at `column_offset` of length `min(row_length - column_offset,
width)`, empty when the row is not longer than the offset, with no
out-of-bounds access; for a row of length 50 the stated concrete instances
hold. -/
theorem claim_C3_row_slicing (row : List Char) (co w : Nat) :
    rowContent row co w = some ((row.drop co).take (min (row.length - co) w)) ∧
    (row.length ≤ co → rowContent row co w = some []) ∧
    (row.length = 50 → rowContent row 10 20 = some ((row.drop 10).take 20)) ∧
    (row.length = 50 → rowContent row 60 w = some []) ∧
    (∀ (wrapFn : List Char → Nat → List (List Char)) (rows : EditorRows)
        (cc : CursorController) (srows i : Nat),
      rows.row_contents.get? (i + cc.row_offset) = some row →
      drawRow wrapFn rows cc w srows i =
        some ((row.drop cc.column_offset).take (min (row.length - cc.column_offset) w))) := by
  refine ⟨rowContent_eq row co w, ?_, ?_, ?_, ?_⟩
  · intro h
    rw [rowContent_eq]
    have h0 : row.length - co = 0 := by omega
    simp [h0]
  · intro h
    rw [rowContent_eq, h]
    norm_num
  · intro h
    rw [rowContent_eq, h]
    norm_num
  · intro wrapFn rows cc srows i h
    have hlt : i + cc.row_offset < rows.number_of_rows := by
      by_contra hc
      rw [List.get?_eq_none.mpr (by exact le_of_not_lt hc)] at h
      exact Option.noConfusion h
    unfold drawRow
    dsimp only
    rw [if_neg (by omega)]
    unfold EditorRows.get_row
    rw [h, Option.some_bind, rowContent_eq]

/-- Claim C4: with an empty row store, zero offsets and an 80 by 24 frame,
frame row 8 is one `~`, then 24 spaces, then the banner
`Pound editor -- Version 1.0.0`, and every other frame row is exactly `~`. -/
theorem claim_C4_empty_buffer_centering (wrapFn : List Char → Nat → List (List Char)) :
    draw_rows wrapFn ⟨[]⟩ (CursorController.new (80, 24)) 80 24 =
      (List.range 24).map (fun i =>
        if i = 8 then
          some ('~' :: (List.replicate 24 ' ' ++ "Pound editor -- Version 1.0.0".toList))
        else some ['~']) := by
  rfl

/-- Claim C5: for any state and any new size at least 1 by 1, the resize
handler sets `x_max`, `y_max` to the size minus one, re-clamps the cursor
into them, and leaves both scroll offsets, the row store, all unchanged
fields intact, storing the new window size. -/
theorem claim_C5_process_resize (o : Output) (x y : Nat) (hx : 1 ≤ x) (hy : 1 ≤ y) :
    (o.process_resize x y).cursor_controller.x_max = x - 1 ∧
    (o.process_resize x y).cursor_controller.y_max = y - 1 ∧
    (o.process_resize x y).cursor_controller.x = min o.cursor_controller.x (x - 1) ∧
    (o.process_resize x y).cursor_controller.y = min o.cursor_controller.y (y - 1) ∧
    (o.process_resize x y).cursor_controller.row_offset = o.cursor_controller.row_offset ∧
    (o.process_resize x y).cursor_controller.column_offset = o.cursor_controller.column_offset ∧
    (o.process_resize x y).editor_rows = o.editor_rows ∧
    (o.process_resize x y).win_size = (x, y) := by
  obtain ⟨w, cc, rows⟩ := o
  simp [Output.process_resize]

/-- Witness for claim C5 at a concrete state shrunk from 80 by 24 to 5 by 4. -/
theorem claim_C5_process_resize_witness :
    (Output.process_resize ⟨(80, 24), ⟨70, 20, 79, 23, 2, 1⟩, ⟨[]⟩⟩ 5 4).cursor_controller.x_max
        = 5 - 1 ∧
    (Output.process_resize ⟨(80, 24), ⟨70, 20, 79, 23, 2, 1⟩, ⟨[]⟩⟩ 5 4).cursor_controller.y_max
        = 4 - 1 ∧
    (Output.process_resize ⟨(80, 24), ⟨70, 20, 79, 23, 2, 1⟩, ⟨[]⟩⟩ 5 4).cursor_controller.x
        = min (Output.mk (80, 24) ⟨70, 20, 79, 23, 2, 1⟩ ⟨[]⟩).cursor_controller.x (5 - 1) ∧
    (Output.process_resize ⟨(80, 24), ⟨70, 20, 79, 23, 2, 1⟩, ⟨[]⟩⟩ 5 4).cursor_controller.y
        = min (Output.mk (80, 24) ⟨70, 20, 79, 23, 2, 1⟩ ⟨[]⟩).cursor_controller.y (4 - 1) ∧
    (Output.process_resize ⟨(80, 24), ⟨70, 20, 79, 23, 2, 1⟩, ⟨[]⟩⟩ 5 4).cursor_controller.row_offset
        = (Output.mk (80, 24) ⟨70, 20, 79, 23, 2, 1⟩ ⟨[]⟩).cursor_controller.row_offset ∧
    (Output.process_resize ⟨(80, 24), ⟨70, 20, 79, 23, 2, 1⟩, ⟨[]⟩⟩ 5 4).cursor_controller.column_offset
        = (Output.mk (80, 24) ⟨70, 20, 79, 23, 2, 1⟩ ⟨[]⟩).cursor_controller.column_offset ∧
    (Output.process_resize ⟨(80, 24), ⟨70, 20, 79, 23, 2, 1⟩, ⟨[]⟩⟩ 5 4).editor_rows
        = (Output.mk (80, 24) ⟨70, 20, 79, 23, 2, 1⟩ ⟨[]⟩).editor_rows ∧
    (Output.process_resize ⟨(80, 24), ⟨70, 20, 79, 23, 2, 1⟩, ⟨[]⟩⟩ 5 4).win_size = (5, 4) :=
  claim_C5_process_resize ⟨(80, 24), ⟨70, 20, 79, 23, 2, 1⟩, ⟨[]⟩⟩ 5 4 (by decide) (by decide)

theorem stripCr_no_cr (l : List Char) (h : l.getLast? ≠ some '\r') : stripCr l = l := by
  unfold stripCr
  rw [if_neg h]

theorem stripCr_cr (l : List Char) : stripCr (l ++ ['\r']) = l := by
  unfold stripCr
  rw [if_pos (List.getLast?_concat l), List.dropLast_concat]

theorem linesAux_line (l rest acc : List Char) (hl : '\n' ∉ l) :
    linesAux (l ++ '\n' :: rest) acc = stripCr (acc.reverse ++ l) :: linesAux rest [] := by
  induction l generalizing acc with
  | nil => simp [linesAux]
  | cons c cs ih =>
    have hc : ¬ c = '\n' := fun hcc => hl (by simp [hcc])
    have hcs : '\n' ∉ cs := fun hcc => hl (List.mem_cons_of_mem _ hcc)
    simp only [List.cons_append, linesAux, if_neg hc, List.append_eq]
    rw [ih _ hcs]
    simp

theorem rustLines_joinLT (L ts : List (List Char)) (hlen : L.length = ts.length)
    (hL : ∀ l ∈ L, '\n' ∉ l ∧ l.getLast? ≠ some '\r')
    (hts : ∀ t ∈ ts, t = ['\n'] ∨ t = ['\r', '\n']) :
    rustLines (joinLT L ts) = L := by
  induction L generalizing ts with
  | nil => simp [joinLT, rustLines, linesAux]
  | cons l ls ih =>
    cases ts with
    | nil => exact absurd hlen (by simp)
    | cons t ts' =>
      obtain ⟨hl1, hl2⟩ := hL l (List.mem_cons_self _ _)
      have hls : ∀ a ∈ ls, '\n' ∉ a ∧ a.getLast? ≠ some '\r' :=
        fun a ha => hL a (List.mem_cons_of_mem _ ha)
      have hts' : ∀ a ∈ ts', a = ['\n'] ∨ a = ['\r', '\n'] :=
        fun a ha => hts a (List.mem_cons_of_mem _ ha)
      have hlen' : ls.length = ts'.length := by simpa using hlen
      have hrec := ih ts' hlen' hls hts'
      rcases hts t (List.mem_cons_self _ _) with ht | ht <;> subst ht
      · show rustLines (l ++ ['\n'] ++ joinLT ls ts') = l :: ls
        unfold rustLines
        rw [List.append_assoc, List.singleton_append, linesAux_line l _ [] hl1]
        rw [List.reverse_nil, List.nil_append, stripCr_no_cr l hl2]
        exact congrArg (l :: ·) hrec
      · show rustLines (l ++ ['\r', '\n'] ++ joinLT ls ts') = l :: ls
        unfold rustLines
        have hsplit : l ++ ['\r', '\n'] ++ joinLT ls ts' =
            (l ++ ['\r']) ++ '\n' :: joinLT ls ts' := by simp
        have hl1' : '\n' ∉ l ++ ['\r'] := by
          intro hmem
          rcases List.mem_append.mp hmem with hmem | hmem
          · exact hl1 hmem
          · simp at hmem
        rw [hsplit, linesAux_line _ _ [] hl1']
        rw [List.reverse_nil, List.nil_append, stripCr_cr l]
        exact congrArg (l :: ·) hrec

/-- Claim C6: loading content made of N terminated lines (each terminated by
a line feed or by carriage return plus line feed) yields `number_of_rows = N`
and each stored row is the corresponding input line with its terminator
stripped. -/
theorem claim_C6_from_file_round_trip (L ts : List (List Char))
    (hlen : L.length = ts.length)
    (hL : ∀ l ∈ L, '\n' ∉ l ∧ l.getLast? ≠ some '\r')
    (hts : ∀ t ∈ ts, t = ['\n'] ∨ t = ['\r', '\n']) :
    (EditorRows.from_file (joinLT L ts)).number_of_rows = L.length ∧
    ∀ i, (EditorRows.from_file (joinLT L ts)).get_row i = L.get? i := by
  have h := rustLines_joinLT L ts hlen hL hts
  constructor
  · simp [EditorRows.from_file, EditorRows.number_of_rows, h]
  · intro i
    simp [EditorRows.from_file, EditorRows.get_row, h]

/-- Witness for claim C6 on the concrete content `ab`, `c`, and an empty
line, terminated by line feed, carriage return plus line feed, line feed. -/
theorem claim_C6_from_file_round_trip_witness :
    (EditorRows.from_file
        (joinLT [['a', 'b'], ['c'], []] [['\n'], ['\r', '\n'], ['\n']])).number_of_rows
      = ([['a', 'b'], ['c'], []] : List (List Char)).length ∧
    ∀ i, (EditorRows.from_file
        (joinLT [['a', 'b'], ['c'], []] [['\n'], ['\r', '\n'], ['\n']])).get_row i
      = ([['a', 'b'], ['c'], []] : List (List Char)).get? i :=
  claim_C6_from_file_round_trip [['a', 'b'], ['c'], []] [['\n'], ['\r', '\n'], ['\n']]
    (by decide) (by decide) (by decide)

/-- Claim C7: dispatching the quit chord (character `q` with exactly the
control modifier) returns the quit signal with the editor state unchanged,
for every prior state. -/
theorem claim_C7_quit_chord (ed : Editor) :
    ed.process_event (Event.Key ⟨KeyCode.Char 'q', KeyModifiers.CONTROL⟩) = some (ed, false) := by
  simp [Editor.process_event, Editor.process_keypress]

/-- Claim C8: `get_row` returns the stored row below `number_of_rows` and
fails (panics) at or above it, and the renderer's own bounds check keeps
every `get_row` call in range, so `drawRow` never reaches the failure. -/
theorem claim_C8_get_row_bounds (rows : EditorRows) (i : Nat)
    (wrapFn : List Char → Nat → List (List Char)) (cc : CursorController)
    (cols srows j : Nat) :
    ((rows.get_row i).isSome ↔ i < rows.number_of_rows) ∧
    (i < rows.number_of_rows → rows.get_row i = some (rows.row_contents.getD i [])) ∧
    (rows.number_of_rows ≤ i → rows.get_row i = none) ∧
    (drawRow wrapFn rows cc cols srows j).isSome = true := by
  refine ⟨?_, ?_, ?_, ?_⟩
  · unfold EditorRows.get_row EditorRows.number_of_rows
    constructor
    · intro hs
      by_contra hc
      rw [List.get?_eq_none.mpr (Nat.le_of_not_lt hc)] at hs
      exact Bool.noConfusion hs
    · intro hlt
      rw [List.get?_eq_get hlt]
      rfl
  · intro h
    unfold EditorRows.get_row
    rw [List.get?_eq_get h, List.getD_eq_getD_get?, List.get?_eq_get h]
    rfl
  · intro h
    exact List.get?_eq_none.mpr h
  · unfold drawRow
    dsimp only
    by_cases h1 : rows.number_of_rows ≤ j + cc.row_offset
    · rw [if_pos h1]
      split_ifs <;> rfl
    · rw [if_neg h1]
      have hlt : j + cc.row_offset < rows.row_contents.length := Nat.lt_of_not_le h1
      unfold EditorRows.get_row
      rw [List.get?_eq_get hlt, Option.some_bind, rowContent_eq]
      rfl

theorem process_keypress_isSome (ed : Editor) (k : KeyEvent) :
    (ed.process_keypress k).isSome = true := by
  unfold Editor.process_keypress
  split_ifs with h1 h2
  · rfl
  · obtain ⟨hdir, hmod⟩ := h2
    unfold Output.move_cursor
    rcases hdir with h | h | h | h <;> rw [h] <;>
      simp [CursorController.move_cursor]
  · rfl

/-- Claim C9: the dispatcher only ever reaches `move_cursor` with one of the
four directional codes, so processing any event never hits the panicking
catch-all arm; and every event other than a quit chord, a bare directional
key or a resize leaves the state unchanged and continues the session. -/
theorem claim_C9_dispatch_safety (ed : Editor) (ev : Event) :
    (ed.process_event ev).isSome = true ∧
    ed.process_event Event.Mouse = some (ed, true) ∧
    ed.process_event Event.FocusGained = some (ed, true) ∧
    ed.process_event Event.FocusLost = some (ed, true) ∧
    (∀ p, ed.process_event (Event.Paste p) = some (ed, true)) ∧
    (∀ k : KeyEvent,
      ¬(k.code = KeyCode.Char 'q' ∧ k.modifiers = KeyModifiers.CONTROL) →
      ¬((k.code = KeyCode.Up ∨ k.code = KeyCode.Down ∨ k.code = KeyCode.Left ∨
          k.code = KeyCode.Right) ∧ k.modifiers = KeyModifiers.NONE) →
      ed.process_event (Event.Key k) = some (ed, true)) := by
  refine ⟨?_, rfl, rfl, rfl, fun p => rfl, ?_⟩
  · cases ev with
    | Key k => exact process_keypress_isSome ed k
    | Resize x y => rfl
    | Mouse => rfl
    | FocusGained => rfl
    | FocusLost => rfl
    | Paste p => rfl
  · intro k h1 h2
    show ed.process_keypress k = some (ed, true)
    unfold Editor.process_keypress
    rw [if_neg h1, if_neg h2]

end Pound
